import Mathlib

/-!
Shallow embedding of `src/Scraper.py` (yogi2103/JobScrapper): a one-shot
job-listing scraper that filters postings by recency, title keywords,
experience range extracted from free text, and technology keywords,
deduplicates by canonical link, and notifies a messaging endpoint.

Strings are modelled as `List Char`; the external collaborators (HTTP
fetches, HTML parsing results) are modelled as functions inside a `World`
record, with `Option` results standing for raised exceptions.  Python
floats from `float(...)` on decimal literals are modelled as exact
rationals `ℚ`.
-/

namespace JobScrapper

/-- Strings of the scraped site, modelled as lists of characters. -/
abbrev Str := List Char

/-- Turn a Lean string literal into the `Str` model. -/
def strL (s : String) : Str := s.toList

/-- Python `str.lower()` (ASCII fragment). -/
def lowerStr (s : Str) : Str := s.map Char.toLower

/-- Test `hasLead p s`: `s` starts with the pattern `p`. -/
def hasLead : Str → Str → Bool
  | [], _ => true
  | _ :: _, [] => false
  | d :: p, c :: s => (d = c) && hasLead p s

/-- Python `p in s` substring test. -/
def containsSub (p : Str) : Str → Bool
  | [] => hasLead p []
  | c :: s => hasLead p (c :: s) || containsSub p s

/-- Characters matched by the regex class `\s` (ASCII fragment). -/
def isPySpace (c : Char) : Bool :=
  c = ' ' || c = '\t' || c = '\n' || c = '\r' || c = '\x0b' || c = '\x0c'

/-- Split a leading maximal run of decimal digits (regex `\d*`). -/
def takeDigits : Str → (List Char × Str)
  | [] => ([], [])
  | c :: s =>
    if c.isDigit then
      let p := takeDigits s
      (c :: p.1, p.2)
    else ([], c :: s)

/-- Numeric value of a digit run (value of `int(...)` on the matched group). -/
def digitsToNat (ds : List Char) : Nat :=
  ds.foldl (fun a c => 10 * a + (c.toNat - 48)) 0

/-- Characters matched by the regex class `\w` (ASCII fragment). -/
def isWordChar (c : Char) : Bool := c.isAlphanum || c = '_'

/-- Python `link.split("?")[0]`: strip the query string off a URL. -/
def stripQuery (s : Str) : Str := s.takeWhile (fun c => ¬ c = '?')

/-- Split on newline characters (model of `str.splitlines`, `\n` fragment). -/
def splitNL : Str → List Str
  | [] => [[]]
  | c :: r =>
    if c = '\n' then [] :: splitNL r
    else
      match splitNL r with
      | [] => [[c]]
      | l :: ls => (c :: l) :: ls

/-- Model of `str.splitlines`: no trailing empty line for a trailing newline. -/
def splitLines (s : Str) : List Str :=
  let l := splitNL s
  if l.getLast? = some [] then l.dropLast else l

/-- Python `"\n".join(...)`. -/
def joinNL (ls : List Str) : Str := List.intercalate (strL ("\n")) ls

/-! ## Recency filter (`is_within_12_hours`, Scraper.py lines 92-100) -/

/-- The unit group of the regex `(\d+)\s*(hour|day)`. -/
inductive TimeUnit where
  | hour
  | day
deriving DecidableEq, Repr

/-- Try to match `(\d+)\s*(hour|day)` at the head of `s`
(alternation tried in source order: `hour`, then `day`). -/
def matchHourDayAt (s : Str) : Option (Nat × TimeUnit) :=
  let p := takeDigits s
  if p.1.isEmpty then none
  else
    let r := p.2.dropWhile isPySpace
    if hasLead (strL ("hour")) r then some (digitsToNat p.1, TimeUnit.hour)
    else if hasLead (strL ("day")) r then some (digitsToNat p.1, TimeUnit.day)
    else none

/-- Model of `re.search(r"(\d+)\s*(hour|day)", t)`: leftmost match, scanning
position by position. -/
def searchHourDay : Str → Option (Nat × TimeUnit)
  | [] => none
  | c :: s =>
    match matchHourDayAt (c :: s) with
    | some r => some r
    | none => searchHourDay s

/-- Source function `is_within_12_hours(text)` from Scraper.py lines 92-100. -/
def is_within_12_hours (text : Str) : Bool :=
  let t := lowerStr text
  if containsSub (strL ("just now")) t || containsSub (strL ("minute")) t then
    true
  else
    match searchHourDay t with
    | some vu =>
        (decide (vu.2 = TimeUnit.hour) && decide (vu.1 ≤ 12))
          || (decide (vu.2 = TimeUnit.day) && decide (vu.1 = 0))
    | none => false

/-! ## Experience extraction (`EXPERIENCE_RE`, Scraper.py lines 44-50)

The verbose, case-insensitive pattern is

    \b (?:(?:minimum|min\.?|at least)\s*)?
       (?P<min>\d+(?:\.\d+)?)
       (?:\s*(?:-|to|–)\s*(?P<max>\d+(?:\.\d+)?))?
       (?:\s*(?:\+|plus))?
       \s*years?\b

Backtracking notes (mirrored by the definitions below): the digit runs
of `min`/`max` never usefully backtrack, because no continuation of the
pattern can start with a digit; the only productive backtracking is
dropping an optional group wholesale, or, inside `years?`, dropping the
final `s` (which then always fails the trailing `\b`).  All literal
alternatives are tried in their source order. -/

/-- Parse `\d+(?:\.\d+)?` at the head of `s`, as the exact rational value
of the matched literal (`float(...)` in the source). -/
def parseNumAt (s : Str) : Option (ℚ × Str) :=
  let p := takeDigits s
  if p.1.isEmpty then none
  else
    match p.2 with
    | '.' :: r2 =>
      let q := takeDigits r2
      if q.1.isEmpty then some ((digitsToNat p.1 : ℚ), p.2)
      else some ((digitsToNat p.1 : ℚ) + (digitsToNat q.1 : ℚ) / ((10 : ℚ) ^ q.1.length), q.2)
    | _ => some ((digitsToNat p.1 : ℚ), p.2)

/-- The trailing `\b`: the next character, if any, is not a word character. -/
def boundOk : Str → Bool
  | [] => true
  | c :: _ => !(isWordChar c)

/-- Match `\s*years?\b` at the head of `s`; returns the remainder. -/
def tryYears (s : Str) : Option Str :=
  let s1 := s.dropWhile isPySpace
  if hasLead (strL ("years")) s1 && boundOk (s1.drop 5) then some (s1.drop 5)
  else if hasLead (strL ("year")) s1 && boundOk (s1.drop 4) then some (s1.drop 4)
  else none

/-- Match `(?:\s*(?:\+|plus))?\s*years?\b` at the head of `s`. -/
def matchAfterNums (s : Str) : Option Str :=
  let s1 := s.dropWhile isPySpace
  let withPlus :=
    if hasLead (strL ("+")) s1 then tryYears (s1.drop 1)
    else if hasLead (strL ("plus")) s1 then tryYears (s1.drop 4)
    else none
  match withPlus with
  | some r => some r
  | none => tryYears s

/-- Match the pattern from `(?P<min>...)` on at the head of `s`:
yields the `min` group, the optional `max` group, and the remainder. -/
def matchFromMin (s : Str) : Option (ℚ × Option ℚ × Str) :=
  match parseNumAt s with
  | none => none
  | some (lo, r) =>
    let s1 := r.dropWhile isPySpace
    let sepLen : Option Nat :=
      if hasLead (strL ("-")) s1 then some 1
      else if hasLead (strL ("to")) s1 then some 2
      else if hasLead (strL ("–")) s1 then some 1
      else none
    let withMax : Option (ℚ × Str) :=
      match sepLen with
      | some n =>
        match parseNumAt ((s1.drop n).dropWhile isPySpace) with
        | some (hi, r2) =>
          match matchAfterNums r2 with
          | some rest => some (hi, rest)
          | none => none
        | none => none
      | none => none
    match withMax with
    | some (hi, rest) => some (lo, some hi, rest)
    | none =>
      match matchAfterNums r with
      | some rest => some (lo, none, rest)
      | none => none

/-- The alternatives of `(?:minimum|min\.?|at least)` in backtracking
order (`min\.?` greedily tries the dot first). -/
def qualVariants : List Str :=
  [strL ("minimum"), strL ("min."), strL ("min"), strL ("at least")]

/-- Try each qualifier alternative (each followed by `\s*`) at the head
of `s`, falling through to the next alternative when the rest of the
pattern fails. -/
def tryQualList : List Str → Str → Option (ℚ × Option ℚ × Str)
  | [], _ => none
  | q :: qs, s =>
    if hasLead q s then
      match matchFromMin ((s.drop q.length).dropWhile isPySpace) with
      | some r => some r
      | none => tryQualList qs s
    else tryQualList qs s

/-- Match the whole `EXPERIENCE_RE` at the current position.
`prevWord` says whether the preceding character is a word character:
every successful match starts with a word character (a qualifier letter
or a digit), so the leading `\b` holds exactly when `prevWord` is
false. -/
def matchExpAt (prevWord : Bool) (s : Str) : Option (ℚ × Option ℚ × Str) :=
  if prevWord then none
  else
    match tryQualList qualVariants s with
    | some r => some r
    | none => matchFromMin s

/-- Model of `EXPERIENCE_RE.finditer`: leftmost, non-overlapping matches, scanning
left to right.  `fuel` bounds the recursion; every step consumes at
least one character, so `length + 1` fuel runs the scan to completion. -/
def scanExpAux : Nat → Bool → Str → List (ℚ × Option ℚ)
  | 0, _, _ => []
  | _ + 1, _, [] => []
  | fuel + 1, prevWord, c :: s =>
    match matchExpAt prevWord (c :: s) with
    | some (lo, mx, rest) => (lo, mx) :: scanExpAux fuel true rest
    | none => scanExpAux fuel (isWordChar c) s

/-- All matches of `EXPERIENCE_RE` in `text` (the `re.IGNORECASE` flag is
modelled by scanning the lowercased text). -/
def findMatches (text : Str) : List (ℚ × Option ℚ) :=
  let t := lowerStr text
  scanExpAux (t.length + 1) false t

/-- The `nums` list built in `fetch_jobs` (Scraper.py lines 171-175):
for each match, `lo` is the `min` group and `hi` the `max` group
defaulting to `lo`; `nums += [lo, hi]`. -/
def extractNums (qualText : Str) : List ℚ :=
  (findMatches qualText).foldl (fun nums m => nums ++ [m.1, m.2.getD m.1]) []

/-! ## Keyword configuration (Scraper.py lines 20-31) -/

/-- Source list `tech_keywords` (Scraper.py lines 20-26). -/
def tech_keywords : List Str :=
  [strL ("java"), strL ("node"), strL ("react"), strL ("reactjs"), strL ("aws"),
   strL ("cloud"), strL ("microservices"), strL ("distributed systems"),
   strL ("api"), strL ("rest"), strL ("docker"), strL ("jenkins"),
   strL ("event-driven"), strL ("lambda"), strL ("ec2"), strL ("spring"),
   strL ("javascript"), strL ("typescript"), strL ("html"), strL ("css"),
   strL ("graphql"), strL ("restful"), strL ("jest"), strL ("mocha"),
   strL ("cypress"), strL ("puppeteer")]

/-- Source list `title_keywords` (Scraper.py lines 28-31); the source lowercases the
literals, which are already lowercase. -/
def title_keywords : List Str :=
  [strL ("engineer"), strL ("sde"), strL ("swe"), strL ("developer"),
   strL ("full stack"), strL ("mts"), strL ("ui"), strL ("web"),
   strL ("member of technical staff"), strL ("software")]

/-! ## Match classifier (Scraper.py lines 167-196, per-card decision) -/

/-- The three per-card decisions taken after the recency and dedup
checks (the reject reasons are the source's "🚫 Filter fail" and
"❌ Missing skills/exp" strings). -/
inductive Decision where
  | rejectFilter
  | rejectExpSkills
  | accepted
deriving DecidableEq, Repr

/-- Test `any(kw in title.lower() for kw in title_keywords)` (line 167). -/
def titleHit (title : Str) : Bool :=
  title_keywords.any (fun kw => containsSub kw (lowerStr title))

/-- Source expression `ok_tech = any(tk in description for tk in tech_keywords)` (line 178);
`description` is already lowercased by the caller. -/
def ok_tech (description : Str) : Bool :=
  tech_keywords.any (fun tk => containsSub tk description)

/-- Source expression `ok_exp = any(2 <= n < 4 for n in nums) and all(n < 4 for n in nums)`
(line 177). -/
def ok_exp (nums : List ℚ) : Bool :=
  nums.any (fun n => decide ((2 : ℚ) ≤ n) && decide (n < (4 : ℚ)))
    && nums.all (fun n => decide (n < (4 : ℚ)))

/-- The experience gate `nums and ok_exp` of line 180: a non-empty
extracted-numbers list that passes `ok_exp`. -/
def expGate (nums : List ℚ) : Bool :=
  (!nums.isEmpty) && ok_exp nums

/-- The classification of one card once its detail page is fetched
(Scraper.py lines 167-196): the title/description filter, then
`if nums and ok_exp and ok_tech` deciding accept versus
"Missing skills/exp".  `description` is the lowercased description,
`qualText` the lowercased qualification text. -/
def classify (title description qualText : Str) : Decision :=
  if !titleHit title || description.isEmpty then Decision.rejectFilter
  else
    let nums := extractNums qualText
    if expGate nums && ok_tech description then Decision.accepted
    else Decision.rejectExpSkills

/-! ## Pipeline data model -/

/-- One result card of a listing page, with the fields the source reads
off the markup (`.base-search-card__title`, `__subtitle`, the `a` href,
and the `time` element). -/
structure Card where
  title : Str
  comp : Str
  href : Str
  posted : Str
deriving DecidableEq, Repr

/-- The data read off a job detail page: the text of the
`description__text` div when present, and the texts of the `li`
elements. -/
structure Detail where
  descRaw : Option Str
  quals : List Str
deriving DecidableEq, Repr

/-- Observable external actions of a run, in program order. -/
inductive Ev where
  | pageVisit : Nat → Ev
  | detailFetch : Str → Ev
  | seenAdd : Str → Ev
  | notifySend : Str → Ev
  | profileFetch : Str → Ev
  | cachePersist : Ev
deriving DecidableEq, Repr

/-- The external collaborators: `pages id start` is the parsed card list
of a listing page (`none` models a raised network/parse exception),
`detailOf link` the parsed detail page (`none` models a raised
exception), `profile name` the company profile page body (`none` models
an HTTP failure or timeout), and the Telegram credentials from the
environment. -/
structure World where
  pages : Str → Nat → Option (List Card)
  detailOf : Str → Option Detail
  profile : Str → Option Str
  token : Option Str
  chatId : Option Str

/-- Model of `seen_jobs`: company name → links already notified (the stored
first-seen timestamps carry no behavior and are not modelled). -/
abbrev SeenJobs := List (Str × List Str)

/-- Lookup `seen_jobs.get(company_name, {})`, the membership domain. -/
def seenLookup : SeenJobs → Str → List Str
  | [], _ => []
  | (c', ls) :: rest, c => if c' = c then ls else seenLookup rest c

/-- Insertion `seen_jobs.setdefault(company_name, {})[link] = ...`. -/
def seenInsert : SeenJobs → Str → Str → SeenJobs
  | [], c, l => [(c, [l])]
  | (c', ls) :: rest, c, l =>
    if c' = c then (c', if l ∈ ls then ls else ls ++ [l]) :: rest
    else (c', ls) :: seenInsert rest c l

/-- The mutable state of one `fetch_jobs` call: the `matches` and
`rejects` accumulators (title, company, posted/link, link/reason exactly
as appended by the source), the `seen_jobs` dict, the trace of external
actions, and the `stop` flag. -/
structure RunState where
  jobMatches : List (Str × Str × Str × Str)
  rejects : List (Str × Str × Str × Str)
  seen : SeenJobs
  events : List Ev
  stop : Bool
deriving DecidableEq, Repr

/-- Reject reason `"⏱ Not within 12h"`. -/
def staleReason : Str := strL ("⏱ Not within 12h")

/-- Reject reason `"🚫 Filter fail"`. -/
def filterReason : Str := strL ("🚫 Filter fail")

/-- Reject reason `"❌ Missing skills/exp"`. -/
def missingReason : Str := strL ("❌ Missing skills/exp")

/-- Source function `send_telegram_message` (Scraper.py lines 102-117): with either
credential absent the call returns without any network action; otherwise
one POST is attempted, whose failure is logged and swallowed, so the
call's only observable effect is the attempt itself. -/
def send_telegram_message (token chatId : Option Str) (link : Str) : List Ev :=
  match token, chatId with
  | some _, some _ => [Ev.notifySend link]
  | _, _ => []

/-- Source expression `description = desc_div.get_text("\n").lower() if desc_div else ""`
(Scraper.py line 160). -/
def cardDescription (d : Detail) : Str :=
  match d.descRaw with
  | some t => lowerStr t
  | none => []

/-- Source variable `qual_text`: the lowercased newline-join of the `li` texts containing
"year" case-insensitively (Scraper.py lines 162-165). -/
def cardQualText (d : Detail) : Str :=
  lowerStr (joinNL (d.quals.filter
    (fun li => containsSub (strL ("year")) (lowerStr li))))

/-- The effect on the state of the classifier's decision for one card
(Scraper.py lines 167-196): the filter reject, the accept branch that
records the link in `seen_jobs` and then sends the notification, and the
missing-skills reject.  All three continue with the next card. -/
def applyDecision (w : World) (company link : Str) (card : Card)
    (st1 : RunState) : Decision → RunState × Bool
  | Decision.rejectFilter =>
    ({ st1 with
        rejects := st1.rejects ++ [(card.title, card.comp, link, filterReason)] },
      true)
  | Decision.accepted =>
    ({ st1 with
        seen := seenInsert st1.seen company link,
        events := st1.events ++ [Ev.seenAdd link]
          ++ send_telegram_message w.token w.chatId link,
        jobMatches := st1.jobMatches ++ [(card.title, card.comp, card.posted, link)] },
      true)
  | Decision.rejectExpSkills =>
    ({ st1 with
        rejects := st1.rejects ++ [(card.title, card.comp, link, missingReason)] },
      true)

/-- Processing of one card in the body of the per-card loop
(Scraper.py lines 143-197).  Returns the new state and whether the loop
continues with the next card: the stale branch (`stop = True; break`)
and a raised detail-fetch exception (which aborts the whole `try` block
of the page) both stop the card loop. -/
def stepCard (w : World) (company : Str) (card : Card) (st : RunState) :
    RunState × Bool :=
  let link := stripQuery card.href
  if is_within_12_hours card.posted then
    if link ∈ seenLookup st.seen company then (st, true)
    else
      let st1 := { st with events := st.events ++ [Ev.detailFetch link] }
      match w.detailOf link with
      | none => (st1, false)
      | some d =>
        applyDecision w company link card st1
          (classify card.title (cardDescription d) (cardQualText d))
  else
    ({ st with
        rejects := st.rejects ++ [(card.title, card.comp, link, staleReason)],
        stop := true },
      false)

/-- The `for card in cards` loop. -/
def processCards (w : World) (company : Str) : List Card → RunState → RunState
  | [], st => st
  | card :: rest, st =>
    let p := stepCard w company card st
    if p.2 then processCards w company rest p.1 else p.1

/-- Offsets `range(0, 250, 25)`. -/
def offsets : List Nat := (List.range 10).map (fun i => 25 * i)

/-- The `for start in range(0, 250, 25)` loop (Scraper.py lines
128-201): check `stop`, fetch the page (a `none` page models the caught
exception whose handler is `continue`), `break` on an empty card list,
otherwise process the cards. -/
def runPages (w : World) (company companyId : Str) :
    List Nat → RunState → RunState
  | [], st => st
  | start :: rest, st =>
    if st.stop then st
    else
      let st1 := { st with events := st.events ++ [Ev.pageVisit start] }
      match w.pages companyId start with
      | none => runPages w company companyId rest st1
      | some cards =>
        if cards.isEmpty then st1
        else runPages w company companyId rest (processCards w company cards st1)

/-- Source function `fetch_jobs(company_name, company_id, seen_jobs)` (Scraper.py lines
123-203). -/
def fetch_jobs (w : World) (company companyId : Str) (sj : SeenJobs) : RunState :=
  runPages w company companyId offsets
    { jobMatches := [], rejects := [], seen := sj, events := [], stop := false }

/-! ## Company resolver (`get_company_id_from_page`, Scraper.py lines 74-90) -/

/-- Assoc-list model of the `fc_cache` dict: `company_name in fc_cache`
lookup. -/
def lookupCache : List (Str × Str) → Str → Option Str
  | [], _ => none
  | (k, v) :: rest, name => if k = name then some v else lookupCache rest name

/-- Insertion `fc_cache[company_name] = fc`. -/
def cacheInsert : List (Str × Str) → Str → Str → List (Str × Str)
  | [], name, fc => [(name, fc)]
  | (k, v) :: rest, name, fc =>
    if k = name then (k, fc) :: rest else (k, v) :: cacheInsert rest name fc

/-- The literal part of the marker pattern
`data-semaphore-content-urn="urn:li:organization:(\d+)"`. -/
def markerLit : Str := strL ("data-semaphore-content-urn=\"urn:li:organization:")

/-- Match the marker pattern at the head of `s`, returning the captured
digit group. -/
def markerAt (s : Str) : Option Str :=
  if hasLead markerLit s then
    let r := s.drop markerLit.length
    let p := takeDigits r
    if p.1.isEmpty then none
    else if hasLead (strL ("\"")) p.2 then some p.1 else none
  else none

/-- Model of `re.search` for the marker pattern: leftmost match. -/
def searchMarker : Str → Option Str
  | [] => none
  | c :: s =>
    match markerAt (c :: s) with
    | some d => some d
    | none => searchMarker s

/-- Source function `get_company_id_from_page(company_name, fc_cache)` (Scraper.py lines
74-90): cached names resolve with no network action; otherwise the
profile page is fetched (`none` = HTTP failure/timeout, the caught
exception path returning `None`), only the first 500 lines are scanned,
and a found marker is stored in the cache and persisted immediately
(`save_json`, modelled by the `cachePersist` event).  Returns the
resolved id, the updated cache, and the trace. -/
def get_company_id_from_page (w : World) (name : Str) (cache : List (Str × Str)) :
    Option Str × List (Str × Str) × List Ev :=
  match lookupCache cache name with
  | some fc => (some fc, cache, [])
  | none =>
    match w.profile (lowerStr name) with
    | none => (none, cache, [Ev.profileFetch name])
    | some body =>
      let snippet := joinNL ((splitLines body).take 500)
      match searchMarker snippet with
      | some fc =>
        (some fc, cacheInsert cache name fc,
          [Ev.profileFetch name, Ev.cachePersist])
      | none => (none, cache, [Ev.profileFetch name])

/-! ## Orchestrator (`main`, Scraper.py lines 209-234) -/

/-- Source list `company_names` (Scraper.py lines 13-18). -/
def company_names : List Str :=
  [strL ("Uber"), strL ("Expedia"), strL ("Razorpay"), strL ("Rubrik"),
   strL ("Atlassian"), strL ("Amazon"), strL ("Google"), strL ("Intuit"),
   strL ("Meta"), strL ("Microsoft"), strL ("Coinbase"), strL ("ThoughtSpot"),
   strL ("Cred"), strL ("Oracle"), strL ("Goldman Sachs"), strL ("Paypal"),
   strL ("LinkedIn"), strL ("Airbnb"), strL ("DoorDash"), strL ("Salesforce"),
   strL ("Confluent"), strL ("Couchbase"), strL ("Stripe"), strL ("Docusign"),
   strL ("Agoda"), strL ("Visa"), strL ("Twilio"), strL ("Okta"),
   strL ("Cohesity"), strL ("Swiggy"), strL ("Rippling"), strL ("Intervue.io"),
   strL ("Deliveroo"), strL ("Remitly")]

/-- The state threaded through the company loop of `main`. -/
structure MainState where
  fcCache : List (Str × Str)
  seen : SeenJobs
  events : List Ev
deriving DecidableEq, Repr

/-- One iteration of the company loop of `main` (Scraper.py lines
217-231): resolve the id; an unresolved company is skipped (`continue`)
without touching `seen_jobs`; otherwise run `fetch_jobs`. -/
def mainStep (w : World) (st : MainState) (company : Str) : MainState :=
  match get_company_id_from_page w company st.fcCache with
  | (none, cache1, evs) =>
    { st with fcCache := cache1, events := st.events ++ evs }
  | (some cid, cache1, evs) =>
    let r := fetch_jobs w company cid st.seen
    { fcCache := cache1, seen := r.seen, events := st.events ++ evs ++ r.events }

/-- The company loop of `main` over the fixed company list. -/
def runMain (w : World) (fcCache : List (Str × Str)) (sj : SeenJobs) : MainState :=
  company_names.foldl (mainStep w) { fcCache := fcCache, seen := sj, events := [] }

/-! ## Trace observers used by the claims -/

/-- The page offsets visited by a trace. -/
def pageVisits (evs : List Ev) : List Nat :=
  evs.filterMap (fun e =>
    match e with
    | Ev.pageVisit n => some n
    | _ => none)

/-- Checker `chk acc evs`: every `notifySend l` in `evs` is preceded by a
`seenAdd l` (or `l` was already in `acc`). -/
def chk : List Str → List Ev → Bool
  | _, [] => true
  | acc, Ev.seenAdd l :: r => chk (l :: acc) r
  | acc, Ev.notifySend l :: r => decide (l ∈ acc) && chk acc r
  | acc, _ :: r => chk acc r

/-- The `seenAdd` links of a trace, collected onto an accumulator. -/
def addAcc (acc : List Str) (evs : List Ev) : List Str :=
  evs.foldl (fun a e =>
    match e with
    | Ev.seenAdd l => l :: a
    | _ => a) acc

/-- Everything of a `RunState` except the trace. -/
def core (st : RunState) :
    List (Str × Str × Str × Str) × List (Str × Str × Str × Str) × SeenJobs × Bool :=
  (st.jobMatches, st.rejects, st.seen, st.stop)

/-! ## Helper lemmas -/

theorem foldl_append_eq_bind {α β : Type} (f : α → List β) :
    ∀ (l : List α) (acc : List β),
      l.foldl (fun a x => a ++ f x) acc = acc ++ l.flatMap f
  | [], acc => by simp [List.flatMap]
  | x :: l, acc => by
    simp only [List.foldl_cons, List.flatMap_cons, foldl_append_eq_bind f l,
      List.append_assoc]

theorem pair_bind_length :
    ∀ l : List (ℚ × Option ℚ),
      (l.flatMap fun m => [m.1, m.2.getD m.1]).length = 2 * l.length
  | [] => by simp [List.flatMap]
  | p :: l => by
    simp only [List.flatMap_cons, List.length_append, List.length_cons,
      pair_bind_length l, List.length_nil, List.length_singleton]
    omega

theorem pair_bind_get :
    ∀ (l : List (ℚ × Option ℚ)) (i : ℕ) (lo : ℚ) (mx : Option ℚ),
      l.get? i = some (lo, mx) →
      ((l.flatMap fun m => [m.1, m.2.getD m.1]).get? (2 * i) = some lo
        ∧ (l.flatMap fun m => [m.1, m.2.getD m.1]).get? (2 * i + 1)
            = some (mx.getD lo))
  | [], i, lo, mx, h => by simp at h
  | p :: l, 0, lo, mx, h => by
    simp only [List.get?_cons_zero, Option.some.injEq] at h
    subst h
    simp [List.flatMap_cons]
  | p :: l, i + 1, lo, mx, h => by
    have ih := pair_bind_get l i lo mx (by simpa using h)
    have h2 : 2 * (i + 1) = (2 * i + 1) + 1 := by ring
    have h3 : 2 * (i + 1) + 1 = ((2 * i + 1) + 1) + 1 := by ring
    simp only [List.flatMap_cons, h2, h3]
    simpa using ih

/-! ## Claim theorems -/

/-- C1: the experience gate `nums and ok_exp` accepts exactly the
non-empty lists with some extracted number in `[2, 4)` and every
extracted number strictly below `4`; in particular `[2, 4]` fails the
gate, a job whose extraction yields `[2, 4]` is not accepted by the
classifier, and a job with an empty extraction is never accepted. -/
theorem C1_experience_gate :
    (∀ nums : List ℚ, expGate nums = true ↔
      (nums ≠ [] ∧ (∃ n ∈ nums, 2 ≤ n ∧ n < 4) ∧ ∀ n ∈ nums, n < 4))
    ∧ expGate [(2 : ℚ), 4] = false
    ∧ (∀ title description qualText, extractNums qualText = [(2 : ℚ), 4] →
        classify title description qualText ≠ Decision.accepted)
    ∧ (∀ title description qualText, extractNums qualText = [] →
        classify title description qualText ≠ Decision.accepted) := by
  refine ⟨?_, by decide, ?_, ?_⟩
  · intro nums
    have hne : nums.isEmpty = false ↔ nums ≠ [] := by
      cases nums <;> simp
    simp only [expGate, Bool.and_eq_true, Bool.not_eq_true', hne, ok_exp,
      List.any_eq_true, List.all_eq_true, decide_eq_true_eq]
  · intro title description qualText h hacc
    simp only [classify, h] at hacc
    rw [show expGate [(2 : ℚ), 4] = false from by decide] at hacc
    simp only [Bool.false_and, if_false] at hacc
    split at hacc
    · exact Decision.noConfusion hacc
    · exact Decision.noConfusion hacc
  · intro title description qualText h hacc
    simp only [classify, h] at hacc
    rw [show expGate ([] : List ℚ) = false from by decide] at hacc
    simp only [Bool.false_and, if_false] at hacc
    split at hacc
    · exact Decision.noConfusion hacc
    · exact Decision.noConfusion hacc

/-- Witness for C1 at concrete inputs: `extractNums "2 to 4 years"`
is `[2, 4]` and such a job is rejected, as is one extracting `[]`. -/
theorem C1_experience_gate_w :
    classify (strL ("engineer")) (strL ("java")) (strL ("2 to 4 years"))
        ≠ Decision.accepted
      ∧ classify (strL ("engineer")) (strL ("java")) (strL ("no mention"))
        ≠ Decision.accepted :=
  ⟨C1_experience_gate.2.2.1 _ _ _ (by decide),
   C1_experience_gate.2.2.2 _ _ _ (by decide)⟩

/-- C2: the recency filter returns true iff the lowercased text contains
"just now" or "minute", or the leftmost `(\d+)\s*(hour|day)` match has
unit hour with value ≤ 12 or unit day with value 0; any other text
(weeks, months, unparseable) is rejected. -/
theorem C2_recency (text : Str) :
    is_within_12_hours text = true ↔
      ((containsSub (strL ("just now")) (lowerStr text) = true
          ∨ containsSub (strL ("minute")) (lowerStr text) = true)
        ∨ ∃ v u, searchHourDay (lowerStr text) = some (v, u)
            ∧ ((u = TimeUnit.hour ∧ v ≤ 12) ∨ (u = TimeUnit.day ∧ v = 0))) := by
  unfold is_within_12_hours
  cases hJ : containsSub (strL ("just now")) (lowerStr text) <;>
    cases hM : containsSub (strL ("minute")) (lowerStr text) <;>
      rcases hs : searchHourDay (lowerStr text) with _ | ⟨v, u⟩ <;>
        simp [hJ, hM, hs, Bool.or_eq_true, Bool.and_eq_true, decide_eq_true_eq] <;>
          aesop

/-- C4: when the lowercased title contains no title keyword or the
description is empty the card is rejected with the filter reason; once
the title gate passes, the card is accepted iff the experience gate
holds and the lowercased description contains a technology keyword, and
otherwise rejected with the missing-skills reason. -/
theorem C4_classifier (title description qualText : Str) :
    (classify title description qualText = Decision.rejectFilter ↔
      ((∀ kw ∈ title_keywords, containsSub kw (lowerStr title) = false)
        ∨ description = []))
    ∧ (titleHit title = true → description ≠ [] →
        ((classify title description qualText = Decision.accepted ↔
            (expGate (extractNums qualText) = true
              ∧ ∃ tk ∈ tech_keywords, containsSub tk description = true))
          ∧ (classify title description qualText = Decision.rejectExpSkills ↔
              ¬ (expGate (extractNums qualText) = true
                  ∧ ∃ tk ∈ tech_keywords, containsSub tk description = true)))) := by
  have hTitle : titleHit title = false ↔
      ∀ kw ∈ title_keywords, containsSub kw (lowerStr title) = false := by
    simp [titleHit, List.any_eq_true, Bool.not_eq_true]
  have hok : ok_tech description = true ↔
      ∃ tk ∈ tech_keywords, containsSub tk description = true := by
    simp [ok_tech, List.any_eq_true]
  constructor
  · constructor
    · intro h
      by_cases hc : (!titleHit title || description.isEmpty) = true
      · have hc2 : titleHit title = false ∨ description = [] := by
          simpa [List.isEmpty_iff] using hc
        rcases hc2 with h1 | h2
        · exact Or.inl (hTitle.mp h1)
        · exact Or.inr h2
      · exfalso
        simp only [classify, if_neg hc] at h
        split at h <;> exact Decision.noConfusion h
    · intro h
      have hc : (!titleHit title || description.isEmpty) = true := by
        rcases h with h1 | h2
        · simp [hTitle.mpr h1]
        · simp [h2]
      simp [classify, hc]
  · intro hT hD
    have hE : description.isEmpty = false := by
      cases description
      · exact absurd rfl hD
      · rfl
    have hcls : classify title description qualText =
        (if expGate (extractNums qualText) && ok_tech description
          then Decision.accepted else Decision.rejectExpSkills) := by
      simp [classify, hT, hE]
    rw [hcls]
    by_cases hG : (expGate (extractNums qualText) && ok_tech description) = true
    · have hG' : expGate (extractNums qualText) = true
          ∧ ok_tech description = true := by simpa using hG
      rw [if_pos hG]
      exact ⟨⟨fun _ => ⟨hG'.1, hok.mp hG'.2⟩, fun _ => rfl⟩,
        ⟨fun h => Decision.noConfusion h,
         fun hn => absurd ⟨hG'.1, hok.mp hG'.2⟩ hn⟩⟩
    · have hGn : ¬ (expGate (extractNums qualText) = true
          ∧ ∃ tk ∈ tech_keywords, containsSub tk description = true) := by
        intro hx
        exact hG (by simp [hx.1, hok.mpr hx.2])
      rw [if_neg hG]
      exact ⟨⟨fun h => Decision.noConfusion h, fun hx => absurd hx hGn⟩,
        ⟨fun _ => hGn, fun _ => rfl⟩⟩

/-- Witness for C4: a passing title gate with a Java description and a
"2 to 3 years" qualification is accepted. -/
theorem C4_classifier_w :
    classify (strL ("Backend Software Engineer")) (strL ("we use java"))
        (strL ("2 to 3 years experience")) = Decision.accepted :=
  ((C4_classifier _ _ _).2 (by decide) (by decide)).1.mpr (by decide)

/-- C3: the extracted-numbers list is the in-order flattening of the
per-match pairs, each pair being the `min` group and the `max` group
defaulting to `min` when absent; concretely "2-3 years" yields `[2, 3]`,
"minimum 3 years" yields `[3, 3]`, and "5+ years" yields `[5, 5]`. -/
theorem C3_extraction :
    (∀ q, extractNums q
        = (findMatches q).flatMap (fun m => [m.1, m.2.getD m.1]))
    ∧ (∀ q, (extractNums q).length = 2 * (findMatches q).length)
    ∧ (∀ q i lo mx, (findMatches q).get? i = some (lo, mx) →
        ((extractNums q).get? (2 * i) = some lo
          ∧ (extractNums q).get? (2 * i + 1) = some (mx.getD lo)))
    ∧ extractNums (strL ("2-3 years")) = [(2 : ℚ), 3]
    ∧ extractNums (strL ("minimum 3 years")) = [(3 : ℚ), 3]
    ∧ extractNums (strL ("5+ years")) = [(5 : ℚ), 5] := by
  have hb : ∀ q, extractNums q
      = (findMatches q).flatMap (fun m => [m.1, m.2.getD m.1]) := by
    intro q
    unfold extractNums
    rw [foldl_append_eq_bind]
    simp
  refine ⟨hb, ?_, ?_, by decide, by decide, by decide⟩
  · intro q
    rw [hb]
    exact pair_bind_length _
  · intro q i lo mx h
    rw [hb]
    exact pair_bind_get _ _ _ _ h

/-- Witness for C3 on "2-3 years": the match list is `[(2, some 3)]` and
the flattened numbers at indices 0 and 1 are 2 and 3. -/
theorem C3_extraction_w :
    (extractNums (strL ("2-3 years"))).get? 0 = some (2 : ℚ)
      ∧ (extractNums (strL ("2-3 years"))).get? 1 = some (3 : ℚ) := by
  have h := C3_extraction.2.2.1 (strL ("2-3 years")) 0 (2 : ℚ) (some (3 : ℚ))
    (by decide)
  simpa using h

/-! ## Concrete worlds used by witnesses and counterexamples -/

/-- A world with empty listing pages, detail pages with no description,
unreachable profile pages, and no Telegram credentials. -/
def wEmpty : World :=
  ⟨fun _ _ => some [], fun _ => some ⟨none, []⟩, fun _ => none, none, none⟩

/-- A card posted "2 days ago" (stale). -/
def cardStale : Card :=
  ⟨strL ("x"), strL ("y"), strL ("L"), strL ("2 days ago")⟩

/-- A card posted "just now" (fresh). -/
def cardFresh : Card :=
  ⟨strL ("x"), strL ("y"), strL ("L"), strL ("just now")⟩

/-- The initial `RunState` of a `fetch_jobs` call with no seen jobs. -/
def emptySt : RunState := ⟨[], [], [], [], false⟩

/-- The world of the C7 counterexample: the listing page at offset 0
raises, offset 25 has one fresh card, and every later page is empty. -/
def c7World : World :=
  ⟨fun _ start =>
      if start = 0 then none
      else if start = 25 then some [cardFresh] else some [],
    fun _ => some ⟨none, []⟩, fun _ => none, none, none⟩

/-- C6: a card failing the recency check makes the card loop record the
stale reject and set the stop flag without touching the rest of the
page, and the page loop then visits no further offset. -/
theorem C6_stale_halts (w : World) (cn cid : Str) (card : Card)
    (rest : List Card) (st : RunState) (offs : List Nat)
    (h : is_within_12_hours card.posted = false) :
    processCards w cn (card :: rest) st =
      { st with
          rejects := st.rejects
            ++ [(card.title, card.comp, stripQuery card.href, staleReason)],
          stop := true }
    ∧ runPages w cn cid offs (processCards w cn (card :: rest) st)
        = processCards w cn (card :: rest) st := by
  have hstep : stepCard w cn card st =
      ({ st with
          rejects := st.rejects
            ++ [(card.title, card.comp, stripQuery card.href, staleReason)],
          stop := true }, false) := by
    simp [stepCard, h]
  have hproc : processCards w cn (card :: rest) st =
      { st with
          rejects := st.rejects
            ++ [(card.title, card.comp, stripQuery card.href, staleReason)],
          stop := true } := by
    simp [processCards, hstep]
  refine ⟨hproc, ?_⟩
  rw [hproc]
  cases offs <;> simp [runPages]

/-- Witness for C6 at a concrete stale card. -/
theorem C6_stale_halts_w :
    processCards wEmpty (strL ("co")) [cardStale] emptySt =
      { emptySt with
          rejects := [(cardStale.title, cardStale.comp,
            stripQuery cardStale.href, staleReason)],
          stop := true }
    ∧ runPages wEmpty (strL ("co")) (strL ("id")) offsets
        (processCards wEmpty (strL ("co")) [cardStale] emptySt)
      = processCards wEmpty (strL ("co")) [cardStale] emptySt :=
  C6_stale_halts wEmpty (strL ("co")) (strL ("id")) cardStale [] emptySt offsets
    (by decide)

/-- Counterexample to C7 as stated: in `c7World` the listing page at
offset 0 raises, yet the page at offset 25 of the same company is still
visited — the caught exception does not abandon the company's remaining
pages. -/
theorem C7_cex :
    c7World.pages (strL ("id")) 0 = none
      ∧ Ev.pageVisit 25
          ∈ (fetch_jobs c7World (strL ("co")) (strL ("id")) []).events := by
  exact ⟨rfl, by decide⟩

/-- C7 amended: a caught exception on one listing page abandons only
that page — the loop `continue`s with the company's next page offset
(and a detail-fetch exception likewise only abandons the remainder of
the current page, not the company). -/
theorem C7_page_error_continues (w : World) (cn cid : Str) (start : Nat)
    (rest : List Nat) (st : RunState)
    (hstop : st.stop = false) (hpage : w.pages cid start = none) :
    runPages w cn cid (start :: rest) st =
      runPages w cn cid rest
        { st with events := st.events ++ [Ev.pageVisit start] }
    ∧ (∀ (card : Card) (stc : RunState),
        is_within_12_hours card.posted = true →
        stripQuery card.href ∉ seenLookup stc.seen cn →
        w.detailOf (stripQuery card.href) = none →
        stepCard w cn card stc =
          ({ stc with
              events := stc.events ++ [Ev.detailFetch (stripQuery card.href)] },
            false)) := by
  constructor
  · simp [runPages, hstop, hpage]
  · intro card stc h1 h2 h3
    simp [stepCard, h1, h2, h3]

/-- Witness for the amended C7: in `c7World` the failing page 0 is
followed by processing of page 25. -/
theorem C7_page_error_continues_w :
    runPages c7World (strL ("co")) (strL ("id")) (0 :: [25]) emptySt =
      runPages c7World (strL ("co")) (strL ("id")) [25]
        { emptySt with events := emptySt.events ++ [Ev.pageVisit 0] } :=
  (C7_page_error_continues c7World (strL ("co")) (strL ("id")) 0 [25] emptySt
    rfl rfl).1

/-- C9: a cached company resolves with no network action; an HTTP
failure, or no marker in the first 500 lines of the fetched profile,
resolves to `none` with no cache change; a found marker is stored in the
cache and persisted immediately; and `main` skips an unresolved company,
leaving its seen-jobs state untouched. -/
theorem C9_resolver (w : World) (name : Str) (cache : List (Str × Str)) :
    (∀ fc, lookupCache cache name = some fc →
      get_company_id_from_page w name cache = (some fc, cache, []))
    ∧ (lookupCache cache name = none → w.profile (lowerStr name) = none →
        get_company_id_from_page w name cache
          = (none, cache, [Ev.profileFetch name]))
    ∧ (∀ body, lookupCache cache name = none →
        w.profile (lowerStr name) = some body →
        searchMarker (joinNL ((splitLines body).take 500)) = none →
        get_company_id_from_page w name cache
          = (none, cache, [Ev.profileFetch name]))
    ∧ (∀ body fc, lookupCache cache name = none →
        w.profile (lowerStr name) = some body →
        searchMarker (joinNL ((splitLines body).take 500)) = some fc →
        get_company_id_from_page w name cache
          = (some fc, cacheInsert cache name fc,
              [Ev.profileFetch name, Ev.cachePersist]))
    ∧ (∀ (st : MainState) (cache1 : List (Str × Str)) (evs : List Ev),
        get_company_id_from_page w name st.fcCache = (none, cache1, evs) →
        mainStep w st name
          = { st with fcCache := cache1, events := st.events ++ evs }) := by
  refine ⟨?_, ?_, ?_, ?_, ?_⟩ <;> intros <;>
    simp_all [get_company_id_from_page, mainStep]

/-- Witness for C9: a cached name returns the cached id untouched. -/
theorem C9_resolver_w :
    get_company_id_from_page wEmpty (strL ("Acme"))
        [(strL ("Acme"), strL ("7"))]
      = (some (strL ("7")), [(strL ("Acme"), strL ("7"))], []) :=
  (C9_resolver wEmpty (strL ("Acme")) [(strL ("Acme"), strL ("7"))]).1
    (strL ("7")) (by decide)

/-! ## Invariant lemmas for the pipeline -/

theorem seenLookup_insert_self :
    ∀ (sj : SeenJobs) (c l : Str), l ∈ seenLookup (seenInsert sj c l) c
  | [], c, l => by simp [seenInsert, seenLookup]
  | (c0, ls) :: rest, c, l => by
    by_cases h0 : c0 = c
    · subst h0
      simp only [seenInsert, if_pos rfl, seenLookup]
      by_cases hm : l ∈ ls <;> simp [hm]
    · simp only [seenInsert, if_neg h0, seenLookup]
      exact seenLookup_insert_self rest c l

theorem seenLookup_insert_mono :
    ∀ (sj : SeenJobs) (c l c' l' : Str),
      l' ∈ seenLookup sj c' → l' ∈ seenLookup (seenInsert sj c l) c'
  | [], _, _, _, _, h => by simp [seenLookup] at h
  | (c0, ls) :: rest, c, l, c', l', h => by
    simp only [seenLookup] at h
    by_cases h0 : c0 = c
    · subst h0
      simp only [seenInsert, if_pos rfl, seenLookup]
      by_cases h1 : c0 = c'
      · rw [if_pos h1] at h ⊢
        by_cases hm : l ∈ ls <;> simp [hm, h, List.mem_append]
      · rw [if_neg h1] at h ⊢
        exact h
    · simp only [seenInsert, if_neg h0, seenLookup]
      by_cases h1 : c0 = c'
      · rw [if_pos h1] at h ⊢
        exact h
      · rw [if_neg h1] at h ⊢
        exact seenLookup_insert_mono rest c l c' l' h

theorem pageVisits_append (xs ys : List Ev) :
    pageVisits (xs ++ ys) = pageVisits xs ++ pageVisits ys := by
  simp [pageVisits]

theorem pageVisits_send (t c : Option Str) (l : Str) :
    pageVisits (send_telegram_message t c l) = [] := by
  cases t <;> cases c <;> simp [send_telegram_message, pageVisits]

theorem notify_mem_send (t c : Option Str) (lk l : Str)
    (h : Ev.notifySend l ∈ send_telegram_message t c lk) : l = lk := by
  cases t <;> cases c <;> simp_all [send_telegram_message]

theorem mem_send_eq (t c : Option Str) (lk : Str) (e : Ev)
    (h : e ∈ send_telegram_message t c lk) : e = Ev.notifySend lk := by
  cases t <;> cases c <;> simp_all [send_telegram_message]

/-- Lemma: `stepCard` appends events: the new trace extends the old one. -/
theorem stepCard_events_extend (w : World) (cn : Str) (card : Card)
    (st : RunState) :
    ∃ tl, ((stepCard w cn card st).1).events = st.events ++ tl := by
  simp only [stepCard]
  by_cases hW : is_within_12_hours card.posted = true
  · simp only [hW, if_true]
    by_cases hS : stripQuery card.href ∈ seenLookup st.seen cn
    · rw [if_pos hS]
      exact ⟨[], by simp⟩
    · rw [if_neg hS]
      rcases hD : w.detailOf (stripQuery card.href) with _ | d
      · simp only [hD]
        exact ⟨[Ev.detailFetch (stripQuery card.href)], rfl⟩
      · simp only [hD]
        rcases hC : classify card.title (cardDescription d) (cardQualText d) with _ | _ | _ <;>
          simp only [hC, applyDecision]
        · exact ⟨[Ev.detailFetch (stripQuery card.href)], rfl⟩
        · exact ⟨[Ev.detailFetch (stripQuery card.href)], rfl⟩
        · exact ⟨[Ev.detailFetch (stripQuery card.href)]
              ++ [Ev.seenAdd (stripQuery card.href)]
              ++ send_telegram_message w.token w.chatId (stripQuery card.href),
            by simp⟩
  · simp only [hW, if_false]
    exact ⟨[], by simp⟩

theorem chk_append : ∀ (xs ys : List Ev) (A : List Str),
    chk A (xs ++ ys) = (chk A xs && chk (addAcc A xs) ys)
  | [], ys, A => by simp [chk, addAcc]
  | Ev.seenAdd l :: xs, ys, A => chk_append xs ys (l :: A)
  | Ev.notifySend l :: xs, ys, A => by
    show (decide (l ∈ A) && chk A (xs ++ ys))
        = ((decide (l ∈ A) && chk A xs) && chk (addAcc A xs) ys)
    rw [chk_append xs ys A, Bool.and_assoc]
  | Ev.pageVisit n :: xs, ys, A => chk_append xs ys A
  | Ev.detailFetch l :: xs, ys, A => chk_append xs ys A
  | Ev.profileFetch l :: xs, ys, A => chk_append xs ys A
  | Ev.cachePersist :: xs, ys, A => chk_append xs ys A

theorem chk_detail_tail (A : List Str) (lk : Str) :
    chk A [Ev.detailFetch lk] = true := by
  simp [chk]

theorem chk_accept_tail (A : List Str) (t c : Option Str) (lk : Str) :
    chk A ([Ev.detailFetch lk]
      ++ ([Ev.seenAdd lk] ++ send_telegram_message t c lk)) = true := by
  cases t <;> cases c <;> simp [send_telegram_message, chk]

theorem chk_visit_tail (A : List Str) (n : Nat) :
    chk A [Ev.pageVisit n] = true := by
  simp [chk]

/-- Lemma: `stepCard` never removes a link from the seen map. -/
theorem stepCard_seen_mono (w : World) (cn : Str) (card : Card)
    (st : RunState) (c' l' : Str) (h : l' ∈ seenLookup st.seen c') :
    l' ∈ seenLookup ((stepCard w cn card st).1).seen c' := by
  simp only [stepCard]
  by_cases hW : is_within_12_hours card.posted = true
  · simp only [hW, if_true]
    by_cases hS : stripQuery card.href ∈ seenLookup st.seen cn
    · rw [if_pos hS]
      exact h
    · rw [if_neg hS]
      rcases hD : w.detailOf (stripQuery card.href) with _ | d
      · simp only [hD]
        exact h
      · simp only [hD]
        rcases hC : classify card.title (cardDescription d) (cardQualText d)
            with _ | _ | _ <;> simp only [hC, applyDecision]
        · exact h
        · exact h
        · exact seenLookup_insert_mono _ _ _ _ _ h
  · simp only [hW, if_false]
    exact h

/-- Every notified link is in the seen map, preserved by `stepCard`:
the accept branch inserts the link before emitting the notification. -/
theorem stepCard_notify_seen (w : World) (cn : Str) (card : Card)
    (st : RunState)
    (h : ∀ l, Ev.notifySend l ∈ st.events → l ∈ seenLookup st.seen cn) :
    ∀ l, Ev.notifySend l ∈ ((stepCard w cn card st).1).events →
      l ∈ seenLookup ((stepCard w cn card st).1).seen cn := by
  simp only [stepCard]
  by_cases hW : is_within_12_hours card.posted = true
  · simp only [hW, if_true]
    by_cases hS : stripQuery card.href ∈ seenLookup st.seen cn
    · rw [if_pos hS]
      exact h
    · rw [if_neg hS]
      rcases hD : w.detailOf (stripQuery card.href) with _ | d
      · simp only [hD]
        intro l hl
        rcases List.mem_append.mp hl with h1 | h2
        · exact h l h1
        · simp at h2
      · simp only [hD]
        rcases hC : classify card.title (cardDescription d) (cardQualText d)
            with _ | _ | _ <;> simp only [hC, applyDecision]
        · intro l hl
          rcases List.mem_append.mp hl with h1 | h2
          · exact h l h1
          · simp at h2
        · intro l hl
          rcases List.mem_append.mp hl with h1 | h2
          · exact h l h1
          · simp at h2
        · intro l hl
          rcases List.mem_append.mp hl with h1 | h2
          · rcases List.mem_append.mp h1 with h3 | h4
            · rcases List.mem_append.mp h3 with h5 | h6
              · exact seenLookup_insert_mono _ _ _ _ _ (h l h5)
              · simp at h6
            · simp at h4
          · have hlk := notify_mem_send _ _ _ _ h2
            subst hlk
            exact seenLookup_insert_self _ _ _
  · simp only [hW, if_false]
    exact h

/-- Every notification in the trace is preceded by the `seenAdd` of its
link, preserved by `stepCard`. -/
theorem stepCard_chk (w : World) (cn : Str) (card : Card) (st : RunState)
    (A : List Str) (h : chk A st.events = true) :
    chk A ((stepCard w cn card st).1).events = true := by
  simp only [stepCard]
  by_cases hW : is_within_12_hours card.posted = true
  · simp only [hW, if_true]
    by_cases hS : stripQuery card.href ∈ seenLookup st.seen cn
    · rw [if_pos hS]
      exact h
    · rw [if_neg hS]
      rcases hD : w.detailOf (stripQuery card.href) with _ | d
      · simp only [hD]
        rw [chk_append, h, chk_detail_tail]
        rfl
      · simp only [hD]
        rcases hC : classify card.title (cardDescription d) (cardQualText d)
            with _ | _ | _ <;> simp only [hC, applyDecision]
        · rw [chk_append, h, chk_detail_tail]
          rfl
        · rw [chk_append, h, chk_detail_tail]
          rfl
        · rw [List.append_assoc, List.append_assoc, chk_append, h,
            chk_accept_tail]
          rfl
  · simp only [hW, if_false]
    exact h

/-- No link is notified twice within a run: preserved by `stepCard`
given that every already-notified link is already in the seen map. -/
theorem stepCard_count (w : World) (cn : Str) (card : Card) (st : RunState)
    (hGood : ∀ l, Ev.notifySend l ∈ st.events → l ∈ seenLookup st.seen cn)
    (hCnt : ∀ l, List.count (Ev.notifySend l) st.events ≤ 1) :
    ∀ l, List.count (Ev.notifySend l) ((stepCard w cn card st).1).events ≤ 1 := by
  simp only [stepCard]
  by_cases hW : is_within_12_hours card.posted = true
  · simp only [hW, if_true]
    by_cases hS : stripQuery card.href ∈ seenLookup st.seen cn
    · rw [if_pos hS]
      exact hCnt
    · rw [if_neg hS]
      rcases hD : w.detailOf (stripQuery card.href) with _ | d
      · simp only [hD]
        intro l
        rw [List.count_append]
        have h0 : List.count (Ev.notifySend l) [Ev.detailFetch (stripQuery card.href)] = 0 := by
          simp
        rw [h0]
        simpa using hCnt l
      · simp only [hD]
        rcases hC : classify card.title (cardDescription d) (cardQualText d)
            with _ | _ | _ <;> simp only [hC, applyDecision]
        · intro l
          rw [List.count_append]
          have h0 : List.count (Ev.notifySend l) [Ev.detailFetch (stripQuery card.href)] = 0 := by
            simp
          rw [h0]
          simpa using hCnt l
        · intro l
          rw [List.count_append]
          have h0 : List.count (Ev.notifySend l) [Ev.detailFetch (stripQuery card.href)] = 0 := by
            simp
          rw [h0]
          simpa using hCnt l
        · intro l
          rw [List.count_append, List.count_append, List.count_append]
          have h0 : List.count (Ev.notifySend l) [Ev.detailFetch (stripQuery card.href)] = 0 := by
            simp
          have h1 : List.count (Ev.notifySend l) [Ev.seenAdd (stripQuery card.href)] = 0 := by
            simp
          rw [h0, h1]
          by_cases hl : l = stripQuery card.href
          · have hnot : Ev.notifySend l ∉ st.events := by
              intro hmem
              exact hS (hl ▸ hGood l hmem)
            have hz : List.count (Ev.notifySend l) st.events = 0 :=
              List.count_eq_zero.mpr hnot
            have hlen : (send_telegram_message w.token w.chatId
                (stripQuery card.href)).length ≤ 1 := by
              cases w.token <;> cases w.chatId <;> simp [send_telegram_message]
            have hsend : List.count (Ev.notifySend l)
                (send_telegram_message w.token w.chatId (stripQuery card.href)) ≤ 1 :=
              le_trans (List.count_le_length _ _) hlen
            omega
          · have hsend : List.count (Ev.notifySend l)
                (send_telegram_message w.token w.chatId (stripQuery card.href)) = 0 := by
              cases hw : w.token <;> cases hc : w.chatId <;>
                simp [send_telegram_message, hl]
            have := hCnt l
            omega
  · simp only [hW, if_false]
    exact hCnt

/-- With the card's link already seen, `stepCard` never touches it:
all new events concern other links. -/
theorem stepCard_frozen (w : World) (cn : Str) (card : Card) (st : RunState)
    (l : Str) (hMem : l ∈ seenLookup st.seen cn) :
    ∀ e ∈ ((stepCard w cn card st).1).events,
      e ∈ st.events ∨ (e ≠ Ev.detailFetch l ∧ e ≠ Ev.notifySend l) := by
  simp only [stepCard]
  by_cases hW : is_within_12_hours card.posted = true
  · simp only [hW, if_true]
    by_cases hS : stripQuery card.href ∈ seenLookup st.seen cn
    · rw [if_pos hS]
      exact fun e he => Or.inl he
    · rw [if_neg hS]
      have hne : stripQuery card.href ≠ l := fun hx => hS (hx ▸ hMem)
      rcases hD : w.detailOf (stripQuery card.href) with _ | d
      · simp only [hD]
        intro e he
        rcases List.mem_append.mp he with h1 | h2
        · exact Or.inl h1
        · right
          simp only [List.mem_singleton] at h2
          subst h2
          exact ⟨by simpa using hne, by simp⟩
      · simp only [hD]
        rcases hC : classify card.title (cardDescription d) (cardQualText d)
            with _ | _ | _ <;> simp only [hC, applyDecision]
        · intro e he
          rcases List.mem_append.mp he with h1 | h2
          · exact Or.inl h1
          · right
            simp only [List.mem_singleton] at h2
            subst h2
            exact ⟨by simpa using hne, by simp⟩
        · intro e he
          rcases List.mem_append.mp he with h1 | h2
          · exact Or.inl h1
          · right
            simp only [List.mem_singleton] at h2
            subst h2
            exact ⟨by simpa using hne, by simp⟩
        · intro e he
          rcases List.mem_append.mp he with h1 | h2
          · rcases List.mem_append.mp h1 with h3 | h4
            · rcases List.mem_append.mp h3 with h5 | h6
              · exact Or.inl h5
              · right
                simp only [List.mem_singleton] at h6
                subst h6
                exact ⟨by simpa using hne, by simp⟩
            · right
              simp only [List.mem_singleton] at h4
              subst h4
              simp
          · right
            have he2 := mem_send_eq _ _ _ _ h2
            subst he2
            exact ⟨by simp, by simpa using hne⟩
  · simp only [hW, if_false]
    intro e he
    exact Or.inl he

/-- Lemma: `stepCard` emits no `pageVisit` events. -/
theorem stepCard_visits (w : World) (cn : Str) (card : Card) (st : RunState) :
    pageVisits ((stepCard w cn card st).1).events = pageVisits st.events := by
  simp only [stepCard]
  by_cases hW : is_within_12_hours card.posted = true
  · simp only [hW, if_true]
    by_cases hS : stripQuery card.href ∈ seenLookup st.seen cn
    · rw [if_pos hS]
    · rw [if_neg hS]
      rcases hD : w.detailOf (stripQuery card.href) with _ | d
      · simp only [hD]
        rw [pageVisits_append]
        simp [pageVisits]
      · simp only [hD]
        rcases hC : classify card.title (cardDescription d) (cardQualText d)
            with _ | _ | _ <;> simp only [hC, applyDecision]
        · rw [pageVisits_append]
          simp [pageVisits]
        · rw [pageVisits_append]
          simp [pageVisits]
        · rw [pageVisits_append, pageVisits_append, pageVisits_append,
            pageVisits_send]
          simp [pageVisits]
  · simp only [hW, if_false]
    rfl

/-! ## Lifts of the invariants through the card loop and the page loop -/

theorem processCards_seen_mono (w : World) (cn : Str) :
    ∀ (cards : List Card) (st : RunState) (c' l' : Str),
      l' ∈ seenLookup st.seen c' →
      l' ∈ seenLookup (processCards w cn cards st).seen c'
  | [], _, _, _, h => h
  | card :: rest, st, c', l', h => by
    simp only [processCards]
    by_cases hp : (stepCard w cn card st).2 = true
    · rw [if_pos hp]
      exact processCards_seen_mono w cn rest _ c' l'
        (stepCard_seen_mono w cn card st c' l' h)
    · rw [if_neg hp]
      exact stepCard_seen_mono w cn card st c' l' h

theorem processCards_notify_seen (w : World) (cn : Str) :
    ∀ (cards : List Card) (st : RunState),
      (∀ l, Ev.notifySend l ∈ st.events → l ∈ seenLookup st.seen cn) →
      ∀ l, Ev.notifySend l ∈ (processCards w cn cards st).events →
        l ∈ seenLookup (processCards w cn cards st).seen cn
  | [], _, h => h
  | card :: rest, st, h => by
    simp only [processCards]
    by_cases hp : (stepCard w cn card st).2 = true
    · rw [if_pos hp]
      exact processCards_notify_seen w cn rest _
        (stepCard_notify_seen w cn card st h)
    · rw [if_neg hp]
      exact stepCard_notify_seen w cn card st h

theorem processCards_chk (w : World) (cn : Str) :
    ∀ (cards : List Card) (st : RunState) (A : List Str),
      chk A st.events = true →
      chk A (processCards w cn cards st).events = true
  | [], _, _, h => h
  | card :: rest, st, A, h => by
    simp only [processCards]
    by_cases hp : (stepCard w cn card st).2 = true
    · rw [if_pos hp]
      exact processCards_chk w cn rest _ A (stepCard_chk w cn card st A h)
    · rw [if_neg hp]
      exact stepCard_chk w cn card st A h

theorem processCards_count (w : World) (cn : Str) :
    ∀ (cards : List Card) (st : RunState),
      (∀ l, Ev.notifySend l ∈ st.events → l ∈ seenLookup st.seen cn) →
      (∀ l, List.count (Ev.notifySend l) st.events ≤ 1) →
      ∀ l, List.count (Ev.notifySend l) (processCards w cn cards st).events ≤ 1
  | [], _, _, hCnt => hCnt
  | card :: rest, st, hGood, hCnt => by
    simp only [processCards]
    by_cases hp : (stepCard w cn card st).2 = true
    · rw [if_pos hp]
      exact processCards_count w cn rest _
        (stepCard_notify_seen w cn card st hGood)
        (stepCard_count w cn card st hGood hCnt)
    · rw [if_neg hp]
      exact stepCard_count w cn card st hGood hCnt

theorem processCards_frozen (w : World) (cn : Str) :
    ∀ (cards : List Card) (st : RunState) (l : Str),
      l ∈ seenLookup st.seen cn →
      ∀ e ∈ (processCards w cn cards st).events,
        e ∈ st.events ∨ (e ≠ Ev.detailFetch l ∧ e ≠ Ev.notifySend l)
  | [], _, _, _, _, he => Or.inl he
  | card :: rest, st, l, hm, e, he => by
    simp only [processCards] at he
    by_cases hp : (stepCard w cn card st).2 = true
    · rw [if_pos hp] at he
      have hm2 := stepCard_seen_mono w cn card st cn l hm
      rcases processCards_frozen w cn rest _ l hm2 e he with h1 | h2
      · exact stepCard_frozen w cn card st l hm e h1
      · exact Or.inr h2
    · rw [if_neg hp] at he
      exact stepCard_frozen w cn card st l hm e he

theorem processCards_visits (w : World) (cn : Str) :
    ∀ (cards : List Card) (st : RunState),
      pageVisits (processCards w cn cards st).events = pageVisits st.events
  | [], _ => rfl
  | card :: rest, st => by
    simp only [processCards]
    by_cases hp : (stepCard w cn card st).2 = true
    · rw [if_pos hp, processCards_visits w cn rest _, stepCard_visits]
    · rw [if_neg hp, stepCard_visits]

theorem runPages_seen_mono (w : World) (cn cid : Str) :
    ∀ (offs : List Nat) (st : RunState) (c' l' : Str),
      l' ∈ seenLookup st.seen c' →
      l' ∈ seenLookup (runPages w cn cid offs st).seen c'
  | [], _, _, _, h => h
  | start :: rest, st, c', l', h => by
    simp only [runPages]
    by_cases hstop : st.stop = true
    · rw [if_pos hstop]
      exact h
    · rw [if_neg hstop]
      rcases hpg : w.pages cid start with _ | cards
      · simp only [hpg]
        exact runPages_seen_mono w cn cid rest _ c' l' h
      · simp only [hpg]
        by_cases hemp : cards.isEmpty = true
        · rw [if_pos hemp]
          exact h
        · rw [if_neg hemp]
          exact runPages_seen_mono w cn cid rest _ c' l'
            (processCards_seen_mono w cn cards _ c' l' h)

theorem notify_visit_extend (st : RunState) (cn : Str) (start : Nat)
    (h : ∀ l, Ev.notifySend l ∈ st.events → l ∈ seenLookup st.seen cn) :
    ∀ l, Ev.notifySend l ∈ (st.events ++ [Ev.pageVisit start]) →
      l ∈ seenLookup st.seen cn := by
  intro l hl
  rcases List.mem_append.mp hl with h1 | h2
  · exact h l h1
  · simp at h2

theorem runPages_notify_seen (w : World) (cn cid : Str) :
    ∀ (offs : List Nat) (st : RunState),
      (∀ l, Ev.notifySend l ∈ st.events → l ∈ seenLookup st.seen cn) →
      ∀ l, Ev.notifySend l ∈ (runPages w cn cid offs st).events →
        l ∈ seenLookup (runPages w cn cid offs st).seen cn
  | [], _, h => h
  | start :: rest, st, h => by
    simp only [runPages]
    by_cases hstop : st.stop = true
    · rw [if_pos hstop]
      exact h
    · rw [if_neg hstop]
      rcases hpg : w.pages cid start with _ | cards
      · simp only [hpg]
        exact runPages_notify_seen w cn cid rest _
          (notify_visit_extend st cn start h)
      · simp only [hpg]
        by_cases hemp : cards.isEmpty = true
        · rw [if_pos hemp]
          exact notify_visit_extend st cn start h
        · rw [if_neg hemp]
          exact runPages_notify_seen w cn cid rest _
            (processCards_notify_seen w cn cards _
              (notify_visit_extend st cn start h))

theorem chk_visit_extend (st : RunState) (start : Nat) (A : List Str)
    (h : chk A st.events = true) :
    chk A (st.events ++ [Ev.pageVisit start]) = true := by
  rw [chk_append, h, chk_visit_tail]
  rfl

theorem runPages_chk (w : World) (cn cid : Str) :
    ∀ (offs : List Nat) (st : RunState) (A : List Str),
      chk A st.events = true →
      chk A (runPages w cn cid offs st).events = true
  | [], _, _, h => h
  | start :: rest, st, A, h => by
    simp only [runPages]
    by_cases hstop : st.stop = true
    · rw [if_pos hstop]
      exact h
    · rw [if_neg hstop]
      rcases hpg : w.pages cid start with _ | cards
      · simp only [hpg]
        exact runPages_chk w cn cid rest _ A (chk_visit_extend st start A h)
      · simp only [hpg]
        by_cases hemp : cards.isEmpty = true
        · rw [if_pos hemp]
          exact chk_visit_extend st start A h
        · rw [if_neg hemp]
          exact runPages_chk w cn cid rest _ A
            (processCards_chk w cn cards _ A (chk_visit_extend st start A h))

theorem count_visit_extend (st : RunState) (start : Nat)
    (h : ∀ l, List.count (Ev.notifySend l) st.events ≤ 1) :
    ∀ l, List.count (Ev.notifySend l)
      (st.events ++ [Ev.pageVisit start]) ≤ 1 := by
  intro l
  rw [List.count_append]
  have h0 : List.count (Ev.notifySend l) [Ev.pageVisit start] = 0 := by simp
  rw [h0]
  simpa using h l

theorem runPages_count (w : World) (cn cid : Str) :
    ∀ (offs : List Nat) (st : RunState),
      (∀ l, Ev.notifySend l ∈ st.events → l ∈ seenLookup st.seen cn) →
      (∀ l, List.count (Ev.notifySend l) st.events ≤ 1) →
      ∀ l, List.count (Ev.notifySend l) (runPages w cn cid offs st).events ≤ 1
  | [], _, _, hCnt => hCnt
  | start :: rest, st, hGood, hCnt => by
    simp only [runPages]
    by_cases hstop : st.stop = true
    · rw [if_pos hstop]
      exact hCnt
    · rw [if_neg hstop]
      rcases hpg : w.pages cid start with _ | cards
      · simp only [hpg]
        exact runPages_count w cn cid rest _
          (notify_visit_extend st cn start hGood)
          (count_visit_extend st start hCnt)
      · simp only [hpg]
        by_cases hemp : cards.isEmpty = true
        · rw [if_pos hemp]
          exact count_visit_extend st start hCnt
        · rw [if_neg hemp]
          exact runPages_count w cn cid rest _
            (processCards_notify_seen w cn cards _
              (notify_visit_extend st cn start hGood))
            (processCards_count w cn cards _
              (notify_visit_extend st cn start hGood)
              (count_visit_extend st start hCnt))

theorem frozen_visit_extend (st : RunState) (start : Nat) (l : Str) :
    ∀ e ∈ (st.events ++ [Ev.pageVisit start]),
      e ∈ st.events ∨ (e ≠ Ev.detailFetch l ∧ e ≠ Ev.notifySend l) := by
  intro e he
  rcases List.mem_append.mp he with h1 | h2
  · exact Or.inl h1
  · right
    simp only [List.mem_singleton] at h2
    subst h2
    simp

theorem runPages_frozen (w : World) (cn cid : Str) :
    ∀ (offs : List Nat) (st : RunState) (l : Str),
      l ∈ seenLookup st.seen cn →
      ∀ e ∈ (runPages w cn cid offs st).events,
        e ∈ st.events ∨ (e ≠ Ev.detailFetch l ∧ e ≠ Ev.notifySend l)
  | [], _, _, _, _, he => Or.inl he
  | start :: rest, st, l, hm, e, he => by
    simp only [runPages] at he
    by_cases hstop : st.stop = true
    · rw [if_pos hstop] at he
      exact Or.inl he
    · rw [if_neg hstop] at he
      rcases hpg : w.pages cid start with _ | cards
      · simp only [hpg] at he
        rcases runPages_frozen w cn cid rest
            { st with events := st.events ++ [Ev.pageVisit start] } l hm e he
          with h1 | h2
        · exact frozen_visit_extend st start l e h1
        · exact Or.inr h2
      · simp only [hpg] at he
        by_cases hemp : cards.isEmpty = true
        · rw [if_pos hemp] at he
          exact frozen_visit_extend st start l e he
        · rw [if_neg hemp] at he
          have hm1 : l ∈ seenLookup
              ({ st with events := st.events ++ [Ev.pageVisit start] } : RunState).seen cn := hm
          rcases runPages_frozen w cn cid rest _ l
              (processCards_seen_mono w cn cards _ cn l hm1) e he with h1 | h2
          · rcases processCards_frozen w cn cards _ l hm1 e h1 with h3 | h4
            · exact frozen_visit_extend st start l e h3
            · exact Or.inr h4
          · exact Or.inr h2

/-! ## The state is independent of the Telegram credentials: notification
outcomes never flow back into the scraping state. -/

theorem stepCard_creds (w : World) (t c : Option Str) (cn : Str)
    (card : Card) (st st' : RunState) (h : core st' = core st) :
    core ((stepCard { w with token := t, chatId := c } cn card st').1)
        = core ((stepCard w cn card st).1)
      ∧ (stepCard { w with token := t, chatId := c } cn card st').2
          = (stepCard w cn card st).2 := by
  obtain ⟨m, r, s, e, p⟩ := st
  obtain ⟨m1, r1, s1, e1, p1⟩ := st'
  simp only [core, Prod.mk.injEq] at h
  obtain ⟨hm, hr, hs, hp⟩ := h
  subst hm
  subst hr
  subst hs
  subst hp
  simp only [stepCard]
  by_cases hW : is_within_12_hours card.posted = true
  · simp only [hW, if_true]
    by_cases hS : stripQuery card.href ∈ seenLookup s1 cn
    · rw [if_pos hS, if_pos hS]
      exact ⟨rfl, by trivial⟩
    · rw [if_neg hS, if_neg hS]
      rcases hD : w.detailOf (stripQuery card.href) with _ | d
      · simp only [hD]
        exact ⟨rfl, by trivial⟩
      · simp only [hD]
        rcases hC : classify card.title (cardDescription d) (cardQualText d)
            with _ | _ | _ <;> simp only [hC, applyDecision] <;>
          exact ⟨rfl, by trivial⟩
  · simp only [hW, if_false]
    exact ⟨rfl, by trivial⟩

theorem processCards_creds (w : World) (t c : Option Str) (cn : Str) :
    ∀ (cards : List Card) (st st' : RunState), core st' = core st →
      core (processCards { w with token := t, chatId := c } cn cards st')
        = core (processCards w cn cards st)
  | [], _, _, h => h
  | card :: rest, st, st', h => by
    simp only [processCards]
    obtain ⟨hcore, hflag⟩ := stepCard_creds w t c cn card st st' h
    by_cases hp : (stepCard w cn card st).2 = true
    · rw [if_pos hp, if_pos (hflag.trans hp)]
      exact processCards_creds w t c cn rest _ _ hcore
    · rw [if_neg hp, if_neg (fun hx => hp (hflag.symm.trans hx))]
      exact hcore

theorem runPages_creds (w : World) (t c : Option Str) (cn cid : Str) :
    ∀ (offs : List Nat) (st st' : RunState), core st' = core st →
      core (runPages { w with token := t, chatId := c } cn cid offs st')
        = core (runPages w cn cid offs st)
  | [], _, _, h => h
  | start :: rest, st, st', h => by
    have hstop_eq : st'.stop = st.stop := congrArg (fun q => q.2.2.2) h
    simp only [runPages]
    by_cases hstop : st.stop = true
    · rw [if_pos hstop, if_pos (hstop_eq.trans hstop)]
      exact h
    · rw [if_neg hstop, if_neg (fun hx => hstop (hstop_eq.symm.trans hx))]
      rcases hpg : w.pages cid start with _ | cards
      · simp only [hpg]
        exact runPages_creds w t c cn cid rest _ _ h
      · simp only [hpg]
        by_cases hemp : cards.isEmpty = true
        · rw [if_pos hemp, if_pos hemp]
          exact h
        · rw [if_neg hemp, if_neg hemp]
          exact runPages_creds w t c cn cid rest _ _
            (processCards_creds w t c cn cards _ _ h)

/-! ## Pagination shape: visited page offsets (claim C8) -/

theorem runPages_visited (w : World) (cn cid : Str) :
    ∀ (offs : List Nat) (st : RunState),
      ∃ k, k ≤ offs.length
        ∧ pageVisits (runPages w cn cid offs st).events
            = pageVisits st.events ++ offs.take k
        ∧ (∀ i a, offs.get? i = some a → i < k →
            w.pages cid a = some [] → k = i + 1)
  | [], st => by
    refine ⟨0, by simp, by simp [runPages], ?_⟩
    intro i a hget
    simp at hget
  | start :: rest, st => by
    simp only [runPages]
    by_cases hstop : st.stop = true
    · rw [if_pos hstop]
      refine ⟨0, by simp, by simp, ?_⟩
      intro i a _ hik
      omega
    · rw [if_neg hstop]
      have hv1 : pageVisits
          ({ st with events := st.events ++ [Ev.pageVisit start] } : RunState).events
          = pageVisits st.events ++ [start] := by
        rw [pageVisits_append]
        simp [pageVisits]
      rcases hpg : w.pages cid start with _ | cards
      · simp only [hpg]
        obtain ⟨k, hk, hv, hcond⟩ := runPages_visited w cn cid rest
          { st with events := st.events ++ [Ev.pageVisit start] }
        refine ⟨k + 1, by simpa using Nat.succ_le_succ hk, ?_, ?_⟩
        · rw [hv, hv1, List.take_succ_cons, List.append_assoc]
          rfl
        · intro i a hget hik hpage
          cases i with
          | zero =>
            simp only [List.get?_cons_zero, Option.some.injEq] at hget
            subst hget
            rw [hpg] at hpage
            exact absurd hpage (by simp)
          | succ j =>
            simp only [List.get?_cons_succ] at hget
            have := hcond j a hget (by omega) hpage
            omega
      · simp only [hpg]
        by_cases hemp : cards.isEmpty = true
        · rw [if_pos hemp]
          refine ⟨1, by simp, ?_, ?_⟩
          · rw [hv1, List.take_succ_cons, List.take_zero]
          · intro i a hget hik hpage
            omega
        · rw [if_neg hemp]
          obtain ⟨k, hk, hv, hcond⟩ := runPages_visited w cn cid rest
            (processCards w cn cards
              { st with events := st.events ++ [Ev.pageVisit start] })
          refine ⟨k + 1, by simpa using Nat.succ_le_succ hk, ?_, ?_⟩
          · rw [hv, processCards_visits, hv1, List.take_succ_cons,
              List.append_assoc]
            rfl
          · intro i a hget hik hpage
            cases i with
            | zero =>
              simp only [List.get?_cons_zero, Option.some.injEq] at hget
              subst hget
              rw [hpg] at hpage
              have : cards = [] := by simpa using hpage
              subst this
              simp at hemp
            | succ j =>
              simp only [List.get?_cons_succ] at hget
              have := hcond j a hget (by omega) hpage
              omega

/-- C5: a link already under the company's entry of `seen_jobs` gets no
detail fetch and no notification in the whole run; `seen_jobs` is
append-only within a run; the dedup check sits after the recency filter
(a stale card is stale-rejected whether or not its link is seen) and
before the detail fetch (a seen fresh card is skipped with no effect at
all); and no link is ever notified more than once. -/
theorem C5_dedup (w : World) (cn cid : Str) (sj : SeenJobs) :
    (∀ l, l ∈ seenLookup sj cn →
      Ev.detailFetch l ∉ (fetch_jobs w cn cid sj).events
        ∧ Ev.notifySend l ∉ (fetch_jobs w cn cid sj).events)
    ∧ (∀ c' l', l' ∈ seenLookup sj c' →
        l' ∈ seenLookup (fetch_jobs w cn cid sj).seen c')
    ∧ (∀ (card : Card) (st : RunState),
        is_within_12_hours card.posted = true →
        stripQuery card.href ∈ seenLookup st.seen cn →
        stepCard w cn card st = (st, true))
    ∧ (∀ (card : Card) (st : RunState),
        is_within_12_hours card.posted = false →
        stepCard w cn card st =
          ({ st with
              rejects := st.rejects
                ++ [(card.title, card.comp, stripQuery card.href, staleReason)],
              stop := true }, false))
    ∧ (∀ l, List.count (Ev.notifySend l) (fetch_jobs w cn cid sj).events ≤ 1) := by
  refine ⟨?_, ?_, ?_, ?_, ?_⟩
  · intro l hl
    have hfr := runPages_frozen w cn cid offsets
      ({ jobMatches := [], rejects := [], seen := sj, events := [], stop := false } : RunState)
      l hl
    constructor
    · intro hmem
      rcases hfr _ hmem with h1 | h2
      · simp at h1
      · exact h2.1 rfl
    · intro hmem
      rcases hfr _ hmem with h1 | h2
      · simp at h1
      · exact h2.2 rfl
  · intro c' l' h
    exact runPages_seen_mono w cn cid offsets _ c' l' h
  · intro card st h1 h2
    simp [stepCard, h1, h2]
  · intro card st h
    simp [stepCard, h]
  · exact runPages_count w cn cid offsets _
      (by intro l h; simp at h) (by intro l; simp)

/-- Witness for C5: with link "L" already seen for company "co", the run
fetches no detail page and sends no notification for it. -/
theorem C5_dedup_w :
    Ev.detailFetch (strL ("L"))
        ∉ (fetch_jobs wEmpty (strL ("co")) (strL ("id"))
            [(strL ("co"), [strL ("L")])]).events
      ∧ Ev.notifySend (strL ("L"))
        ∉ (fetch_jobs wEmpty (strL ("co")) (strL ("id"))
            [(strL ("co"), [strL ("L")])]).events :=
  (C5_dedup wEmpty (strL ("co")) (strL ("id"))
    [(strL ("co"), [strL ("L")])]).1 (strL ("L")) (by decide)

/-- C8: the page loop iterates a prefix of the fixed offsets
`0, 25, ..., 225` (at most 10 pages), and a fetched page with zero cards
is the last page visited for that company. -/
theorem C8_pagination (w : World) (cn cid : Str) (sj : SeenJobs) :
    offsets = [0, 25, 50, 75, 100, 125, 150, 175, 200, 225]
    ∧ ∃ k, k ≤ 10
        ∧ pageVisits (fetch_jobs w cn cid sj).events = offsets.take k
        ∧ (∀ i a, offsets.get? i = some a → i < k →
            w.pages cid a = some [] → k = i + 1) := by
  refine ⟨by decide, ?_⟩
  unfold fetch_jobs
  obtain ⟨k, hk, hv, hcond⟩ := runPages_visited w cn cid offsets
    { jobMatches := [], rejects := [], seen := sj, events := [], stop := false }
  refine ⟨k, ?_, ?_, hcond⟩
  · have hlen : offsets.length = 10 := by decide
    omega
  · simpa [pageVisits] using hv

/-- Witness for C8 at a concrete world whose pages are all empty: only
offset 0 is visited. -/
theorem C8_pagination_w :
    offsets = [0, 25, 50, 75, 100, 125, 150, 175, 200, 225]
    ∧ ∃ k, k ≤ 10
        ∧ pageVisits (fetch_jobs wEmpty (strL ("co")) (strL ("id")) []).events
            = offsets.take k
        ∧ (∀ i a, offsets.get? i = some a → i < k →
            wEmpty.pages (strL ("id")) a = some [] → k = i + 1) :=
  C8_pagination wEmpty (strL ("co")) (strL ("id")) []

/-- C10: every notification in the trace is preceded by the `seenAdd` of
its link; every notified link ends up recorded in `seen_jobs`; the final
state (matches, rejects, seen map, stop flag) is unchanged under any
Telegram credentials, so a disabled or failed notification still leaves
the link recorded; sending with a missing credential is a no-op; and a
link persisted as seen is never notified on a later run started from
that state. -/
theorem C10_notify_order (w : World) (cn cid : Str) (sj : SeenJobs) :
    chk [] (fetch_jobs w cn cid sj).events = true
    ∧ (∀ l, Ev.notifySend l ∈ (fetch_jobs w cn cid sj).events →
        l ∈ seenLookup (fetch_jobs w cn cid sj).seen cn)
    ∧ (∀ t c, core (fetch_jobs { w with token := t, chatId := c } cn cid sj)
        = core (fetch_jobs w cn cid sj))
    ∧ (∀ c l, send_telegram_message none c l = [])
    ∧ (∀ t l, send_telegram_message t none l = [])
    ∧ (∀ l, l ∈ seenLookup sj cn →
        Ev.notifySend l ∉ (fetch_jobs w cn cid sj).events) := by
  refine ⟨?_, ?_, ?_, ?_, ?_, ?_⟩
  · exact runPages_chk w cn cid offsets _ [] rfl
  · exact runPages_notify_seen w cn cid offsets _ (by intro l h; simp at h)
  · intro t c
    exact runPages_creds w t c cn cid offsets _ _ rfl
  · intro c l
    cases c <;> rfl
  · intro t l
    cases t <;> rfl
  · intro l hl hmem
    rcases runPages_frozen w cn cid offsets
        ({ jobMatches := [], rejects := [], seen := sj, events := [], stop := false } : RunState)
        l hl _ hmem with h1 | h2
    · simp at h1
    · exact h2.2 rfl

/-- Witness for C10: with link "L" persisted as seen for company "co", a
later run never notifies it. -/
theorem C10_notify_order_w :
    Ev.notifySend (strL ("L"))
      ∉ (fetch_jobs wEmpty (strL ("co")) (strL ("id"))
          [(strL ("co"), [strL ("L")])]).events :=
  (C10_notify_order wEmpty (strL ("co")) (strL ("id"))
    [(strL ("co"), [strL ("L")])]).2.2.2.2.2 (strL ("L")) (by decide)

end JobScrapper


